import Mathlib

/-
Verification of the predictive simulation and trend-analysis engine of the
stock repository (predictive_model.py, stock_analyzer.py).

Modelling conventions:
* Prices and statistics are exact rationals.  The one floating-point
  phenomenon the code depends on is the IEEE behaviour of division by zero
  inside the trend-strength formula; it is modelled by the small inductive
  type FV of IEEE-style values (finite, plus and minus infinity, NaN) with
  the comparison semantics of Python builtin min and max.
* numpy std is an irrational square root, so functions that consume it take
  the standard deviation as an explicit argument constrained by volSpec
  (nonnegative, squaring to the population variance, NaN on an empty
  sample) exactly as np.std produces it.
* The ambient random draws of generate_predictions are passed as explicit
  streams of sampled values, as the spec requires for testability.
* Python exceptions are modelled with Except PyError.
-/

namespace Stock

/-- Python exceptions that the analysed code can raise. -/
inductive PyError where
  | typeError : PyError
  | attrError : PyError
deriving DecidableEq, Repr

/-- One OHLC observation; dates are integer day numbers (days since a Monday). -/
structure Bar where
  date : Int
  openPrice : ℚ
  high : ℚ
  low : ℚ
  close : ℚ
deriving DecidableEq, Repr

/-- Closing prices of a history, in order. -/
def closesOf (bars : List Bar) : List ℚ := bars.map Bar.close

/-- pandas Series.pct_change().dropna(): successive relative changes. -/
def pctChange (xs : List ℚ) : List ℚ :=
  List.zipWith (fun prev cur => (cur - prev) / prev) xs xs.tail

/-- Arithmetic mean of a list (0 on the empty list, where pandas gives NaN;
all uses in the claims are guarded by nonemptiness). -/
def meanQ (xs : List ℚ) : ℚ := xs.sum / xs.length

/-- Population variance, the square of numpy std with its default ddof equal 0. -/
def popVariance (xs : List ℚ) : ℚ :=
  meanQ (xs.map fun x => (x - meanQ xs) ^ 2)

/-- Sample variance, the square of pandas Series.std with its default ddof equal 1. -/
def sampleVariance (xs : List ℚ) : ℚ :=
  (xs.map fun x => (x - meanQ xs) ^ 2).sum / ((xs.length : ℚ) - 1)

/-- Least-squares slope of ys against indices 0,1,...  This is the degree-one
coefficient of np.polyfit; for a single point the minimum-norm least-squares
solution has slope 0, which the rational convention 0/0 = 0 reproduces. -/
def slopeLS (ys : List ℚ) : ℚ :=
  let n : ℚ := ys.length
  let sx : ℚ := ((List.range ys.length).map fun i => (i : ℚ)).sum
  let sxx : ℚ := ((List.range ys.length).map fun i => ((i : ℚ)) ^ 2).sum
  let sy : ℚ := ys.sum
  let sxy : ℚ := (List.zipWith (fun i y => (i : ℚ) * y) (List.range ys.length) ys).sum
  (n * sxy - sx * sy) / (n * sxx - sx ^ 2)

/-- Minimum of a list, as np.min on a nonempty array. -/
def minList (xs : List ℚ) : ℚ :=
  match xs with
  | [] => 0
  | x :: t => t.foldl min x

/-- Maximum of a list, as np.max on a nonempty array. -/
def maxList (xs : List ℚ) : ℚ :=
  match xs with
  | [] => 0
  | x :: t => t.foldl max x

/-- Last 20 elements, as Series.tail(20).values. -/
def tail20 (xs : List ℚ) : List ℚ := xs.drop (xs.length - 20)

/-- First differences, as np.diff. -/
def diffList (xs : List ℚ) : List ℚ :=
  List.zipWith (fun a b => b - a) xs xs.tail

/-- IEEE-style value: finite rational, infinities, or NaN. -/
inductive FV where
  | fin (q : ℚ) : FV
  | inf : FV
  | ninf : FV
  | nan : FV
deriving DecidableEq, Repr

namespace FV

/-- Multiplication by the positive literal 10, as hist_volatility * 10. -/
def mulTen : FV → FV
  | fin q => fin (q * 10)
  | inf => inf
  | ninf => ninf
  | nan => nan

/-- Multiplication by the positive literal 100, as norm_pred_slope * 100. -/
def mulHundred : FV → FV
  | fin q => fin (q * 100)
  | inf => inf
  | ninf => ninf
  | nan => nan

/-- Division of a finite rational numerator by an IEEE value.  Division by
zero follows IEEE 754: 0/0 is NaN, a nonzero numerator gives a signed
infinity. -/
def divNum (a : ℚ) : FV → FV
  | fin b =>
      if b = 0 then
        if a = 0 then nan else if 0 < a then inf else ninf
      else fin (a / b)
  | inf => fin 0
  | ninf => fin 0
  | nan => nan

/-- IEEE strict less-than: any comparison with NaN is false. -/
def lt : FV → FV → Bool
  | fin a, fin b => decide (a < b)
  | fin _, inf => true
  | ninf, fin _ => true
  | ninf, inf => true
  | _, _ => false

/-- Python max(a, x): the second argument wins only when strictly greater. -/
def pymax (a x : FV) : FV := if lt a x then x else a

/-- Python min(a, x): the second argument wins only when strictly smaller. -/
def pymin (a x : FV) : FV := if lt x a then x else a

end FV

/-- Specification of the value np.std returns on a sample: NaN on the empty
sample, otherwise the nonnegative square root of the population variance. -/
def volSpec (v : FV) (xs : List ℚ) : Prop :=
  (xs = [] ∧ v = FV.nan) ∨
  (xs ≠ [] ∧ ∃ q : ℚ, v = FV.fin q ∧ 0 ≤ q ∧ q ^ 2 = popVariance xs)

/-- Trend-strength chain of analyze_trend lines 61 to 65:
min(100, max(0, abs(pred_slope) / (hist_volatility * 10) * 100)). -/
def strengthFV (vol : FV) (predSlope : ℚ) : FV :=
  FV.pymin (FV.fin 100) (FV.pymax (FV.fin 0) ((FV.divNum |predSlope| vol.mulTen).mulHundred))

/-- Result batch of generate_predictions: five parallel lists. -/
structure Batch where
  prices : List ℚ
  percentageChanges : List ℚ
  openPrices : List ℚ
  highPrices : List ℚ
  lowPrices : List ℚ
deriving DecidableEq, Repr

/-- Empty batch returned on missing history. -/
def emptyBatch : Batch := ⟨[], [], [], [], []⟩

/-- Trend summary returned by analyze_trend.  The strength carries the IEEE
value produced by the unguarded division. -/
structure TrendResult where
  trendDirection : String
  strength : FV
  supportLevel : ℚ
  resistanceLevel : ℚ
  rsi : ℚ
  macd : ℚ
deriving DecidableEq, Repr

/-- Neutral result of analyze_trend on missing data (lines 30 to 37). -/
def neutralTrend : TrendResult :=
  ⟨"unknown", FV.fin 0, 0, 0, 50, 0⟩

/-- One step of the pandas ewm(adjust=True) weighted mean: the accumulator
holds the weighted numerator and the weight sum. -/
def ewmStep (r : ℚ) (acc : ℚ × ℚ) (x : ℚ) : ℚ × ℚ :=
  (x + r * acc.1, 1 + r * acc.2)

/-- Last value of Series.ewm(span).mean() with the pandas default
adjust=True, where r = 1 - alpha and alpha = 2/(span+1). -/
def ewmLast (r : ℚ) (xs : List ℚ) : ℚ :=
  let nd := xs.foldl (ewmStep r) (0, 0)
  nd.1 / nd.2

/-- RSI of lines 71 to 81, over an already concatenated close list. -/
def rsiOf (xs : List ℚ) : ℚ :=
  let d := diffList xs
  let gains := (d.filter fun x => 0 < x).sum
  let losses := |(d.filter fun x => x < 0).sum|
  if losses = 0 then 100 else 100 - 100 / (1 + gains / losses)

/-- PredictiveModel.analyze_trend.  The historical frame is Option to cover
the None check; the prediction dict is Option because subscripting a None
prediction raises TypeError.  vol is the value of
np.std(historical_data close pct_change dropna), constrained by volSpec in
the theorems. -/
def analyzeTrend (hist : Option (List Bar)) (pred : Option Batch) (vol : FV) :
    Except PyError TrendResult :=
  match hist with
  | none => .ok neutralTrend
  | some bars =>
    if bars.isEmpty then .ok neutralTrend
    else
      match pred with
      | none => .error .typeError
      | some batch =>
        if batch.prices.isEmpty then .ok neutralTrend
        else
          let recentCloses := tail20 (closesOf bars)
          let predictedCloses := batch.prices
          let predSlope := slopeLS predictedCloses
          let trendDirection :=
            if 1 / 1000 < predSlope then "upward"
            else if predSlope < -(1 / 1000) then "downward"
            else "sideways"
          let strength := strengthFV vol predSlope
          let supportLevel := min (minList recentCloses) (minList predictedCloses) * (98 / 100)
          let resistanceLevel := max (maxList recentCloses) (maxList predictedCloses) * (102 / 100)
          let rsi := rsiOf (recentCloses ++ predictedCloses)
          let macd := ewmLast (11 / 13) (closesOf bars) - ewmLast (25 / 27) (closesOf bars)
          .ok ⟨trendDirection, strength, supportLevel, resistanceLevel, rsi, macd⟩

/-- Streams of sampled random values: rf models the np.random.normal(0, 1)
draw, gd the sampled value of np.random.normal(0, volatility/2), u the
np.random.random() draw, each indexed by the simulation step. -/
structure Rand where
  rf : ℕ → ℚ
  gd : ℕ → ℚ
  u : ℕ → ℚ

/-- One simulated OHLC point together with its percentage change. -/
structure SimPoint where
  percentageChange : ℚ
  price : ℚ
  openPrice : ℚ
  highPrice : ℚ
  lowPrice : ℚ
deriving DecidableEq, Repr

/-- Drawn high-low range of line 160: new_price * mean_high_low_ratio *
(0.8 + 0.4 * random). -/
def stepRange (newPrice meanHighLowRatio udraw : ℚ) : ℚ :=
  newPrice * meanHighLowRatio * (4 / 5 + 2 / 5 * udraw)

/-- Loop body of generate_predictions lines 142 to 168 for one day. -/
def predStep (meanReturn vol meanOpenCloseDiff meanHighLowRatio lastPrice rfd gdd udraw : ℚ) :
    SimPoint :=
  let dailyReturn := meanReturn + rfd * vol
  let percentageChange := dailyReturn * 100
  let newPrice := lastPrice * (1 + dailyReturn)
  let openPrice := lastPrice * (1 + meanOpenCloseDiff + gdd)
  let priceRange := stepRange newPrice meanHighLowRatio udraw
  let highPrice := max newPrice openPrice + priceRange / 2
  let lowPrice := min newPrice openPrice - priceRange / 2
  ⟨percentageChange, newPrice, openPrice, highPrice, lowPrice⟩

/-- Simulation loop: k is the absolute step index into the random streams,
n the number of remaining days. -/
def genPoints (meanReturn vol meanOpenCloseDiff meanHighLowRatio : ℚ) (r : Rand)
    (lastPrice : ℚ) (k : ℕ) : ℕ → List SimPoint
  | 0 => []
  | n + 1 =>
    let pt := predStep meanReturn vol meanOpenCloseDiff meanHighLowRatio lastPrice
      (r.rf k) (r.gd k) (r.u k)
    pt :: genPoints meanReturn vol meanOpenCloseDiff meanHighLowRatio r pt.price (k + 1) n

/-- PredictiveModel.generate_predictions.  vol is the sampled standard
deviation pandas Series.std of the historical returns, passed explicitly;
the five appended lists of the source are the five projections of the
generated point list. -/
def generatePredictions (hist : Option (List Bar)) (currentPrice : ℚ) (days : ℕ)
    (vol : ℚ) (r : Rand) : Batch :=
  match hist with
  | none => emptyBatch
  | some bars =>
    if bars.isEmpty then emptyBatch
    else
      let histReturns := pctChange (closesOf bars)
      let meanReturn := meanQ histReturns
      let meanHighLowRatio := meanQ (bars.map fun b => (b.high - b.low) / b.close)
      let meanOpenCloseDiff :=
        meanQ (List.zipWith (fun prev cur => (cur.openPrice - prev.close) / prev.close)
          bars bars.tail)
      let pts := genPoints meanReturn vol meanOpenCloseDiff meanHighLowRatio r
        currentPrice 0 days
      ⟨pts.map SimPoint.price, pts.map SimPoint.percentageChange,
        pts.map SimPoint.openPrice, pts.map SimPoint.highPrice, pts.map SimPoint.lowPrice⟩

/-- Results the external DataFetcher hands back: the real-time quote price
(fetch_real_time_data returns None on total failure) and the historical
frame, Option to cover a missing frame. -/
structure Fetch where
  realTime : Option ℚ
  hist : Option (List Bar)

/-- Cache fields of a StockAnalyzer instance; none models the Python None. -/
structure AState where
  rt : Option ℚ
  hist : Option (List Bar)
  pred : Option Batch
deriving DecidableEq, Repr

/-- Analyzer state at construction: all caches empty. -/
def initState : AState := ⟨none, none, none⟩

/-- StockAnalyzer.get_real_time_data: fetch once, memoize. -/
def getRealTimeData (f : Fetch) (s : AState) : Option ℚ × AState :=
  match s.rt with
  | some q => (some q, s)
  | none => (f.realTime, { s with rt := f.realTime })

/-- StockAnalyzer.get_historical_data: fetch once, memoize. -/
def getHistoricalData (f : Fetch) (s : AState) : Option (List Bar) × AState :=
  match s.hist with
  | some h => (some h, s)
  | none => (f.hist, { s with hist := f.hist })

/-- StockAnalyzer.get_predictive_data (lines 68 to 102).  The Bool records
whether generate_predictions was invoked.  Subscripting a None real-time
quote raises TypeError. -/
def getPredictiveData (f : Fetch) (s : AState) (days : ℕ) (vol : ℚ) (r : Rand) :
    Except PyError (Option Batch × AState × Bool) :=
  let regenerate : Bool :=
    match s.pred with
    | none => true
    | some b => decide (b.prices.length ≠ days)
  if regenerate then
    let hs := getHistoricalData f s
    match hs.1 with
    | some bars =>
      if bars.isEmpty then .ok (hs.2.pred, hs.2, false)
      else
        let rs := getRealTimeData f hs.2
        match rs.1 with
        | none => .error .typeError
        | some price =>
          let batch := generatePredictions (some bars) price days vol r
          .ok (some batch, { rs.2 with pred := some batch }, true)
    | none => .ok (hs.2.pred, hs.2, false)
  else .ok (s.pred, s, false)

/-- StockAnalyzer.get_trend_analysis (lines 104 to 117). -/
def getTrendAnalysis (f : Fetch) (s : AState) (days : ℕ) (volG : ℚ) (r : Rand) (volA : FV) :
    Except PyError (TrendResult × AState) :=
  let hs := getHistoricalData f s
  match getPredictiveData f hs.2 days volG r with
  | .error e => .error e
  | .ok pr =>
    match analyzeTrend hs.1 pr.1 volA with
    | .error e => .error e
    | .ok t => .ok (t, pr.2.1)

/-- Python weekday of an integer day number, with day 0 a Monday; values 5
and 6 are Saturday and Sunday. -/
def weekday (d : Int) : Int := d % 7

/-- Suffix test on strings, as str.endswith. -/
def strEndsWith (s post : String) : Bool := post.data.isSuffixOf s.data

/-- Continuous-market detection of lines 153 and 180: the uppercased symbol
ends with ".X" or "-USD". -/
def contMarket (sym : String) : Bool :=
  strEndsWith sym ".X" || strEndsWith sym "-USD"

/-- Next appended calendar date of the while loop at lines 177 to 187: step
one day for continuous markets, otherwise advance to the next weekday.  At
most two consecutive days are skipped (Saturday and Sunday), so the bounded
search over d+1, d+2, d+3 is exactly the loop. -/
def nextDate (cont : Bool) (d : Int) : Int :=
  if cont then d + 1
  else if weekday (d + 1) < 5 then d + 1
  else if weekday (d + 2) < 5 then d + 2
  else d + 3

/-- Dates assigned to the n predictive points, starting after start. -/
def genDates (cont : Bool) (start : Int) : ℕ → List Int
  | 0 => []
  | n + 1 => nextDate cont start :: genDates cont (nextDate cont start) n

/-- One row of the combined frame: calendar date, OHLC, and the type tag. -/
structure CRow where
  date : Int
  openPrice : ℚ
  high : ℚ
  low : ℚ
  close : ℚ
  rowType : String
deriving DecidableEq, Repr

/-- Rows of the predictive DataFrame of lines 189 to 195: index dates zipped
with the five value columns. -/
def zipRows : List Int → List ℚ → List ℚ → List ℚ → List ℚ → List CRow
  | d :: ds, o :: os, h :: hs, l :: ls, c :: cs =>
    ⟨d, o, h, l, c, "predictive"⟩ :: zipRows ds os hs ls cs
  | _, _, _, _, _ => []

/-- StockAnalyzer.combine_historical_and_predictive (lines 119 to 200).
A None historical frame raises AttributeError at the .copy() call; a None
predictive batch raises TypeError when its prices are subscripted.  now is
the datetime.now() reference date used when the history is empty. -/
def combineHistoricalAndPredictive (sym : String) (now : Int) (f : Fetch) (s : AState)
    (days : ℕ) (vol : ℚ) (r : Rand) : Except PyError (List CRow × AState) :=
  let hs := getHistoricalData f s
  match hs.1 with
  | none => .error .attrError
  | some bars =>
    match getPredictiveData f hs.2 days vol r with
    | .error e => .error e
    | .ok pr =>
      match pr.1 with
      | none => .error .typeError
      | some batch =>
        let start :=
          match bars.getLast? with
          | some b => b.date
          | none => now
        let dates := genDates (contMarket sym) start batch.prices.length
        let histRows := bars.map fun b =>
          CRow.mk b.date b.openPrice b.high b.low b.close "historical"
        .ok (histRows ++
          zipRows dates batch.openPrices batch.highPrices batch.lowPrices batch.prices,
          pr.2.1)

/-- Characterization of clamp(|slope| / (sqrt(svar) * 10) * 100, 0, 100)
without mentioning the square root: c is the clamped value iff either the
unclamped value is at least 100 and c = 100, or c is the nonnegative number
whose square times svar is 100 * slope^2.  Used to compare the strength
formula against a stated standard deviation whose square is svar. -/
def strengthSpecSq (slope svar c : ℚ) : Prop :=
  (100 * svar ≤ slope ^ 2 ∧ c = 100) ∨
  (slope ^ 2 < 100 * svar ∧ 0 ≤ c ∧ c ^ 2 * svar = 100 * slope ^ 2)

/-- Modelled from the spec: recursion tail of the EMA description in the
spec (series seeded from the first observation, y = (1-alpha) y + alpha x).
This is the pandas adjust=False recursion, stated for comparison with the
adjust=True weighted mean the code computes. -/
def emaRecAux (alpha acc : ℚ) : List ℚ → ℚ
  | [] => acc
  | x :: t => emaRecAux alpha ((1 - alpha) * acc + alpha * x) t

/-- Modelled from the spec: EMA at the last point per the spec wording,
seeded from the first observation with smoothing factor alpha. -/
def emaRecLast (alpha : ℚ) : List ℚ → ℚ
  | [] => 0
  | x :: t => emaRecAux alpha x t

/-- Weighted numerator of the pandas adjust=True EMA in closed form:
sum of x_i * r^(n-1-i). -/
def powWeightedSum (r : ℚ) : List ℚ → ℚ
  | [] => 0
  | x :: t => x * r ^ t.length + powWeightedSum r t

/-- Geometric weight sum 1 + r + ... + r^(n-1). -/
def geomSumQ (r : ℚ) (n : ℕ) : ℚ := ((List.range n).map fun i => r ^ i).sum

/-- Close price after k simulated days: currentPrice compounded by the
drawn daily returns.  Used to state that the emitted prices are in
chronological order. -/
def priceAfter (meanReturn vol : ℚ) (r : Rand) (currentPrice : ℚ) : ℕ → ℚ
  | 0 => currentPrice
  | k + 1 => priceAfter meanReturn vol r currentPrice k * (1 + (meanReturn + r.rf k * vol))

/-- Well-formed batch: the five lists have equal lengths.  Every batch the
program ever caches comes out of generate_predictions and satisfies this. -/
def batchWF (b : Batch) : Prop :=
  b.percentageChanges.length = b.prices.length ∧
  b.openPrices.length = b.prices.length ∧
  b.highPrices.length = b.prices.length ∧
  b.lowPrices.length = b.prices.length

/-- Well-formed analyzer state: any cached batch is well formed. -/
def stateWF (s : AState) : Prop := ∀ b, s.pred = some b → batchWF b

/-- Deterministic random source drawing 0 forever, for concrete runs. -/
def zeroRand : Rand := ⟨fun _ => 0, fun _ => 0, fun _ => 0⟩

/-- History bar with all prices 1 except the close. -/
def mkBar (c : ℚ) : Bar := ⟨0, 1, 1, 1, c⟩

/-- Concrete three-day history with closes 1, 2, 3. -/
def cexHist3 : List Bar := [mkBar 1, mkBar 2, mkBar 3]

/-- Concrete two-day history with closes 1, 2. -/
def cexHist2 : List Bar := [mkBar 1, mkBar 2]

/-- Concrete two-point prediction batch with prices 1, 2. -/
def cexBatch12 : Batch := ⟨[1, 2], [0, 0], [0, 0], [0, 0], [0, 0]⟩

/-- Concrete one-point prediction batch. -/
def cexBatch5 : Batch := ⟨[5], [0], [0], [0], [0]⟩

/-- Concrete flat history: both closes equal 2, so the close percentage
changes are all zero and their standard deviation is zero. -/
def flatHist : List Bar := [mkBar 2, mkBar 2]

/-- Concrete falling two-point prediction batch with prices 2, 1. -/
def cexBatch21 : Batch := ⟨[2, 1], [0, 0], [0, 0], [0, 0], [0, 0]⟩

/-- Concrete cached batch of three points for the caching claims. -/
def wBatch3 : Batch := ⟨[10, 11, 12], [0, 0, 0], [1, 1, 1], [2, 2, 2], [3, 3, 3]⟩

/-- Concrete one-bar history dated on a Friday (day 4). -/
def friBar : Bar := ⟨4, 1, 2, 0, 1⟩

/-- Concrete rising two-point prediction batch with prices 4, 5. -/
def wBatch45 : Batch := ⟨[4, 5], [0, 0], [0, 0], [0, 0], [0, 0]⟩

/-- Combined rows of the concrete Friday history with the cached
three-point batch: one historical row, then Monday-to-Wednesday predictive
rows. -/
def wRows : List CRow :=
  [⟨4, 1, 2, 0, 1, "historical"⟩, ⟨7, 1, 2, 3, 10, "predictive"⟩,
    ⟨8, 1, 2, 3, 11, "predictive"⟩, ⟨9, 1, 2, 3, 12, "predictive"⟩]

/-- Analyzer state after the concrete combine call: history memoized, the
cached batch untouched. -/
def wState2 : AState := ⟨none, some [friBar], some wBatch3⟩

/-- Python max of two finite IEEE values is the rational max. -/
theorem pymax_fin (a b : ℚ) : FV.pymax (.fin a) (.fin b) = .fin (max a b) := by
  unfold FV.pymax FV.lt
  by_cases h : a < b
  · simp [h, max_eq_right h.le]
  · simp [h, max_eq_left (not_lt.1 h)]

/-- Python min of two finite IEEE values is the rational min. -/
theorem pymin_fin (a b : ℚ) : FV.pymin (.fin a) (.fin b) = .fin (min a b) := by
  unfold FV.pymin FV.lt
  by_cases h : b < a
  · simp [h, min_eq_right h.le]
  · simp [h, min_eq_left (not_lt.1 h)]

/-- With a positive finite volatility the strength chain computes the plain
rational clamp min(100, max(0, abs(slope) / (q * 10) * 100)). -/
theorem strengthFV_fin_pos (q slope : ℚ) (hq : 0 < q) :
    strengthFV (FV.fin q) slope = FV.fin (min 100 (max 0 (|slope| / (q * 10) * 100))) := by
  have hq10 : q * 10 ≠ 0 := by positivity
  simp only [strengthFV, FV.mulTen, FV.divNum]
  rw [if_neg hq10]
  simp only [FV.mulHundred]
  rw [pymax_fin, pymin_fin]

/-- With zero volatility the IEEE chain yields 100 for a nonzero slope (the
division gives infinity) and 0 for a zero slope (NaN loses both the Python
max against 0 and the subsequent min against 100). -/
theorem strengthFV_zero (slope : ℚ) :
    strengthFV (FV.fin 0) slope = if slope = 0 then FV.fin 0 else FV.fin 100 := by
  simp only [strengthFV, FV.mulTen, FV.divNum, zero_mul, if_true]
  by_cases h : slope = 0
  · simp [h, FV.mulHundred, FV.pymax, FV.pymin, FV.lt]
  · rw [if_neg (abs_ne_zero.2 h), if_pos (abs_pos.2 h)]
    simp [h, FV.mulHundred, FV.pymax, FV.pymin, FV.lt]

/-- Evaluation of analyze_trend on a nonempty history and a nonempty
prediction list: the returned record, field by field. -/
theorem analyzeTrend_nonempty (bars : List Bar) (batch : Batch) (vol : FV)
    (hb : bars ≠ []) (hp : batch.prices ≠ []) :
    analyzeTrend (some bars) (some batch) vol = .ok
      ⟨if 1 / 1000 < slopeLS batch.prices then "upward"
        else if slopeLS batch.prices < -(1 / 1000) then "downward" else "sideways",
       strengthFV vol (slopeLS batch.prices),
       min (minList (tail20 (closesOf bars))) (minList batch.prices) * (98 / 100),
       max (maxList (tail20 (closesOf bars))) (maxList batch.prices) * (102 / 100),
       rsiOf (tail20 (closesOf bars) ++ batch.prices),
       ewmLast (11 / 13) (closesOf bars) - ewmLast (25 / 27) (closesOf bars)⟩ := by
  cases bars with
  | nil => exact absurd rfl hb
  | cons b bs =>
    cases hbp : batch.prices with
    | nil => exact absurd hbp hp
    | cons p ps => simp [analyzeTrend, hbp]

/-- C1: for a history whose close percentage changes have zero standard
deviation and a nonempty prediction, analyze_trend returns the finite
strength 100 when the predicted slope is nonzero and 0 when it is zero,
with no raised fault and no NaN in the result. -/
theorem c1_zero_volatility_strength :
    ∀ bars batch vol, bars ≠ [] → batch.prices ≠ [] →
    pctChange (closesOf bars) ≠ [] →
    popVariance (pctChange (closesOf bars)) = 0 →
    volSpec vol (pctChange (closesOf bars)) →
    ∃ res, analyzeTrend (some bars) (some batch) vol = .ok res ∧
      res.strength = (if slopeLS batch.prices = 0 then FV.fin 0 else FV.fin 100) := by
  intro bars batch vol hb hp hpct hvar hspec
  have hcase := hspec.resolve_left fun hl => hpct hl.1
  obtain ⟨-, q, hq, -, hq2⟩ := hcase
  have hq0 : q = 0 := by
    have h2 : q ^ 2 = 0 := hq2.trans hvar
    exact (pow_eq_zero_iff two_ne_zero).1 h2
  subst hq0
  subst hq
  rw [analyzeTrend_nonempty bars batch _ hb hp]
  exact ⟨_, rfl, strengthFV_zero (slopeLS batch.prices)⟩

/-- Witness for C1: a flat two-day history (closes 2, 2) and the falling
prediction 2, 1 give strength 100. -/
theorem c1_zero_volatility_strength_witness :
    ∃ res, analyzeTrend (some flatHist) (some cexBatch21) (FV.fin 0) = .ok res ∧
      res.strength = (if slopeLS cexBatch21.prices = 0 then FV.fin 0 else FV.fin 100) :=
  c1_zero_volatility_strength flatHist cexBatch21 (FV.fin 0)
    (by simp [flatHist])
    (by simp [cexBatch21])
    (by norm_num [pctChange, closesOf, flatHist, mkBar])
    (by norm_num [popVariance, pctChange, closesOf, flatHist, mkBar, meanQ])
    (Or.inr ⟨by norm_num [pctChange, closesOf, flatHist, mkBar], 0, rfl, le_refl 0,
      by norm_num [popVariance, pctChange, closesOf, flatHist, mkBar, meanQ]⟩)

/-- C4: on empty or missing history, generate_predictions returns the empty
batch (all five lists empty) without raising; and on empty history or empty
prediction list, analyze_trend returns exactly the neutral default
(direction unknown, strength 0, support 0, resistance 0, rsi 50, macd 0)
without raising. -/
theorem c4_empty_inputs_give_sentinels :
    (∀ cp days vol r, generatePredictions none cp days vol r = emptyBatch) ∧
    (∀ cp days vol r, generatePredictions (some []) cp days vol r = emptyBatch) ∧
    (∀ pred vol, analyzeTrend none pred vol = .ok neutralTrend) ∧
    (∀ pred vol, analyzeTrend (some []) pred vol = .ok neutralTrend) ∧
    (∀ bars batch vol, batch.prices = [] →
      analyzeTrend (some bars) (some batch) vol = .ok neutralTrend) := by
  refine ⟨fun _ _ _ _ => rfl, fun _ _ _ _ => rfl, fun _ _ => rfl, fun _ _ => rfl, ?_⟩
  intro bars batch vol h
  cases bars with
  | nil => rfl
  | cons b bs => simp [analyzeTrend, h]

/-- Witness for C4 at concrete inputs: a nonempty history with an empty
prediction list yields exactly the neutral default. -/
theorem c4_empty_inputs_give_sentinels_witness :
    analyzeTrend (some [mkBar 1]) (some emptyBatch) FV.nan = .ok neutralTrend :=
  c4_empty_inputs_give_sentinels.2.2.2.2 [mkBar 1] emptyBatch FV.nan rfl

/-- C10: whenever the drawn price range new_price * mean_high_low_ratio *
(0.8 + 0.4 u) is nonnegative, the simulated point of the generate_predictions
loop body satisfies low <= min(open, close) and high >= max(open, close). -/
theorem c10_high_low_bracket_open_close :
    ∀ meanReturn vol mocd mhlr lastPrice rfd gdd udraw : ℚ,
    0 ≤ stepRange (lastPrice * (1 + (meanReturn + rfd * vol))) mhlr udraw →
    (predStep meanReturn vol mocd mhlr lastPrice rfd gdd udraw).lowPrice ≤
      min (predStep meanReturn vol mocd mhlr lastPrice rfd gdd udraw).openPrice
        (predStep meanReturn vol mocd mhlr lastPrice rfd gdd udraw).price ∧
    max (predStep meanReturn vol mocd mhlr lastPrice rfd gdd udraw).openPrice
        (predStep meanReturn vol mocd mhlr lastPrice rfd gdd udraw).price ≤
      (predStep meanReturn vol mocd mhlr lastPrice rfd gdd udraw).highPrice := by
  intro meanReturn vol mocd mhlr lastPrice rfd gdd udraw h
  have h2 : 0 ≤ stepRange (lastPrice * (1 + (meanReturn + rfd * vol))) mhlr udraw / 2 :=
    div_nonneg h (by norm_num)
  simp only [predStep]
  constructor
  · rw [min_comm]
    linarith
  · rw [max_comm]
    linarith

/-- Witness for C10 at concrete inputs where the drawn range is zero. -/
theorem c10_high_low_bracket_open_close_witness :
    (predStep 0 0 0 0 1 0 0 0).lowPrice ≤
      min (predStep 0 0 0 0 1 0 0 0).openPrice (predStep 0 0 0 0 1 0 0 0).price ∧
    max (predStep 0 0 0 0 1 0 0 0).openPrice (predStep 0 0 0 0 1 0 0 0).price ≤
      (predStep 0 0 0 0 1 0 0 0).highPrice :=
  c10_high_low_bracket_open_close 0 0 0 0 1 0 0 0 (by norm_num [stepRange])

/-- C2 (code bug): with an empty fetched history, get_predictive_data and
get_trend_analysis degrade to None and the neutral default without raising,
but combine_historical_and_predictive subscripts the None predictive batch
and raises TypeError, contradicting the graceful-degradation requirement. -/
theorem c2_combine_crashes_on_empty_history :
    combineHistoricalAndPredictive "AAPL" 0 ⟨some 1, some []⟩ initState 5 0 zeroRand
      = .error PyError.typeError ∧
    getPredictiveData ⟨some 1, some []⟩ initState 5 0 zeroRand
      = .ok (none, ⟨none, some [], none⟩, false) ∧
    getTrendAnalysis ⟨some 1, some []⟩ initState 5 0 zeroRand FV.nan
      = .ok (neutralTrend, ⟨none, some [], none⟩) :=
  ⟨rfl, rfl, rfl⟩

/-- C8: get_predictive_data reuses a cached batch whose price list already
has the requested length, returning it and the state unchanged without
invoking generate_predictions; and generate_predictions is invoked only
when the cache is empty or the cached length differs from the request. -/
theorem c8_cache_reused_iff_length_matches :
    ∀ f s days vol r,
    (∀ b, s.pred = some b → b.prices.length = days →
      getPredictiveData f s days vol r = .ok (some b, s, false)) ∧
    (∀ out, getPredictiveData f s days vol r = .ok out → out.2.2 = true →
      s.pred = none ∨ ∃ b, s.pred = some b ∧ b.prices.length ≠ days) := by
  intro f s days vol r
  constructor
  · intro b hb hlen
    unfold getPredictiveData
    rw [hb]
    simp [hlen]
  · intro out hout htrue
    cases hp : s.pred with
    | none => exact Or.inl rfl
    | some b =>
      by_cases hlen : b.prices.length = days
      · exfalso
        unfold getPredictiveData at hout
        rw [hp] at hout
        simp [hlen] at hout
        rw [← hout] at htrue
        simp at htrue
      · exact Or.inr ⟨b, rfl, hlen⟩

/-- Length of the simulation loop output. -/
theorem genPoints_length (mr vol mocd mhlr : ℚ) (r : Rand) :
    ∀ n p k, (genPoints mr vol mocd mhlr r p k n).length = n := by
  intro n
  induction n with
  | zero => intro p k; rfl
  | succ m ih => intro p k; simp only [genPoints, List.length_cons, ih]

/-- The close prices emitted by the simulation loop are the compounded
prices, in chronological order of the day index. -/
theorem genPoints_prices (mr vol mocd mhlr : ℚ) (r : Rand) (cp : ℚ) :
    ∀ n k, (genPoints mr vol mocd mhlr r (priceAfter mr vol r cp k) k n).map SimPoint.price
      = (List.range n).map fun i => priceAfter mr vol r cp (k + i + 1) := by
  intro n
  induction n with
  | zero => intro k; rfl
  | succ m ih =>
    intro k
    have hstep :
        (predStep mr vol mocd mhlr (priceAfter mr vol r cp k) (r.rf k) (r.gd k) (r.u k)).price
          = priceAfter mr vol r cp (k + 1) := rfl
    simp only [genPoints, List.map_cons, hstep, ih (k + 1)]
    rw [List.range_succ_eq_map, List.map_cons, List.map_map]
    have harg : (fun i => priceAfter mr vol r cp (k + 1 + i + 1))
        = ((fun i => priceAfter mr vol r cp (k + i + 1)) ∘ Nat.succ) := by
      funext i
      simp only [Function.comp_apply]
      congr 1
      omega
    rw [harg]

/-- Witness for C8: a cached three-point batch is returned unchanged for a
three-day request. -/
theorem c8_cache_reused_iff_length_matches_witness :
    getPredictiveData ⟨none, none⟩ ⟨none, none, some wBatch3⟩ 3 0 zeroRand
      = .ok (some wBatch3, ⟨none, none, some wBatch3⟩, false) :=
  (c8_cache_reused_iff_length_matches ⟨none, none⟩ ⟨none, none, some wBatch3⟩ 3 0 zeroRand).1
    wBatch3 rfl rfl

/-- C3: for a nonempty history, any current price and any days at least 1,
generate_predictions emits exactly days predicted prices, and the
percentage-change, open, high and low lists also have exactly days
elements; the price list is the chronological sequence of compounded
prices for days 1 to days. -/
theorem c3_generate_lengths :
    ∀ bars cp days vol r, bars ≠ [] → 1 ≤ days →
    (generatePredictions (some bars) cp days vol r).prices.length = days ∧
    (generatePredictions (some bars) cp days vol r).percentageChanges.length = days ∧
    (generatePredictions (some bars) cp days vol r).openPrices.length = days ∧
    (generatePredictions (some bars) cp days vol r).highPrices.length = days ∧
    (generatePredictions (some bars) cp days vol r).lowPrices.length = days ∧
    (generatePredictions (some bars) cp days vol r).prices =
      (List.range days).map
        (fun i => priceAfter (meanQ (pctChange (closesOf bars))) vol r cp (i + 1)) := by
  intro bars cp days vol r hb hd
  cases bars with
  | nil => exact absurd rfl hb
  | cons b bs =>
    simp only [generatePredictions, List.isEmpty_cons, Bool.false_eq_true, if_false,
      List.length_map, genPoints_length]
    refine ⟨trivial, trivial, trivial, trivial, trivial, ?_⟩
    have h0 := genPoints_prices (meanQ (pctChange (closesOf (b :: bs)))) vol
      (meanQ (List.zipWith (fun prev cur => (cur.openPrice - prev.close) / prev.close)
        (b :: bs) (b :: bs).tail))
      (meanQ ((b :: bs).map fun x => (x.high - x.low) / x.close)) r cp days 0
    simpa using h0

/-- Witness for C3: one history bar, two days, zero draws. -/
theorem c3_generate_lengths_witness :
    (generatePredictions (some [mkBar 1]) 1 2 0 zeroRand).prices.length = 2 ∧
    (generatePredictions (some [mkBar 1]) 1 2 0 zeroRand).percentageChanges.length = 2 ∧
    (generatePredictions (some [mkBar 1]) 1 2 0 zeroRand).openPrices.length = 2 ∧
    (generatePredictions (some [mkBar 1]) 1 2 0 zeroRand).highPrices.length = 2 ∧
    (generatePredictions (some [mkBar 1]) 1 2 0 zeroRand).lowPrices.length = 2 ∧
    (generatePredictions (some [mkBar 1]) 1 2 0 zeroRand).prices =
      (List.range 2).map
        (fun i => priceAfter (meanQ (pctChange (closesOf [mkBar 1]))) 0 zeroRand 1 (i + 1)) :=
  c3_generate_lengths [mkBar 1] 1 2 0 zeroRand (by simp) (by norm_num)

/-- RSI always lands in the closed interval from 0 to 100. -/
theorem rsiOf_bounds (xs : List ℚ) : 0 ≤ rsiOf xs ∧ rsiOf xs ≤ 100 := by
  unfold rsiOf
  by_cases h : |((diffList xs).filter fun x => x < 0).sum| = 0
  · rw [if_pos h]
    norm_num
  · rw [if_neg h]
    have hL : 0 < |((diffList xs).filter fun x => x < 0).sum| :=
      lt_of_le_of_ne (abs_nonneg _) (Ne.symm h)
    have hG : 0 ≤ ((diffList xs).filter fun x => 0 < x).sum := by
      apply List.sum_nonneg
      intro x hx
      have := List.of_mem_filter hx
      exact (le_of_lt (of_decide_eq_true this))
    have hrs : 0 ≤ ((diffList xs).filter fun x => 0 < x).sum /
        |((diffList xs).filter fun x => x < 0).sum| := div_nonneg hG hL.le
    have h1 : (0 : ℚ) < 1 + ((diffList xs).filter fun x => 0 < x).sum /
        |((diffList xs).filter fun x => x < 0).sum| := by linarith
    have h2 : 100 / (1 + ((diffList xs).filter fun x => 0 < x).sum /
        |((diffList xs).filter fun x => x < 0).sum|) ≤ 100 :=
      div_le_self (by norm_num) (by linarith)
    have h3 : 0 < 100 / (1 + ((diffList xs).filter fun x => 0 < x).sum /
        |((diffList xs).filter fun x => x < 0).sum|) := div_pos (by norm_num) h1
    constructor <;> linarith

/-- C9: every analyze_trend result has rsi between 0 and 100, including the
neutral default 50; and when the absolute sum of the negative first
differences of the concatenated recent-historical and predicted closes is
zero, the rsi is exactly 100. -/
theorem c9_rsi_bounds :
    (∀ hist pred vol res, analyzeTrend hist pred vol = .ok res →
      0 ≤ res.rsi ∧ res.rsi ≤ 100) ∧
    (∀ bars batch vol res, bars ≠ [] → batch.prices ≠ [] →
      analyzeTrend (some bars) (some batch) vol = .ok res →
      |((diffList (tail20 (closesOf bars) ++ batch.prices)).filter fun x => x < 0).sum| = 0 →
      res.rsi = 100) := by
  constructor
  · intro hist pred vol res h
    match hist with
    | none =>
      simp only [analyzeTrend, Except.ok.injEq] at h
      rw [← h]
      norm_num [neutralTrend]
    | some bars =>
      match bars with
      | [] =>
        simp only [analyzeTrend, List.isEmpty_nil, if_true, Except.ok.injEq] at h
        rw [← h]
        norm_num [neutralTrend]
      | b :: bs =>
        match pred with
        | none => simp [analyzeTrend] at h
        | some batch =>
          by_cases hbp : batch.prices = []
          · simp only [analyzeTrend, List.isEmpty_cons, Bool.false_eq_true, if_false, hbp,
              List.isEmpty_nil, if_true, Except.ok.injEq] at h
            rw [← h]
            norm_num [neutralTrend]
          · rw [analyzeTrend_nonempty (b :: bs) batch vol (by simp) hbp] at h
            injection h with h
            rw [← h]
            exact rsiOf_bounds _
  · intro bars batch vol res hb hp h hloss
    rw [analyzeTrend_nonempty bars batch vol hb hp] at h
    injection h with h
    rw [← h]
    simp only [rsiOf, hloss, if_pos]

/-- Witness for C9: the neutral default (empty inputs) and a concrete
strictly rising history and prediction, where the loss sum is zero and the
rsi is exactly 100. -/
theorem c9_rsi_bounds_witness :
    (0 ≤ neutralTrend.rsi ∧ neutralTrend.rsi ≤ 100) ∧
    (∃ res, analyzeTrend (some cexHist3) (some wBatch45) (FV.fin 0) = .ok res ∧
      res.rsi = 100) := by
  constructor
  · exact c9_rsi_bounds.1 none none FV.nan neutralTrend rfl
  · refine ⟨_, analyzeTrend_nonempty cexHist3 wBatch45 (FV.fin 0)
      (by simp [cexHist3]) (by simp [wBatch45]), ?_⟩
    refine c9_rsi_bounds.2 cexHist3 wBatch45 (FV.fin 0) _
      (by simp [cexHist3]) (by simp [wBatch45])
      (analyzeTrend_nonempty cexHist3 wBatch45 (FV.fin 0)
        (by simp [cexHist3]) (by simp [wBatch45])) ?_
    norm_num [diffList, tail20, closesOf, cexHist3, wBatch45, mkBar, List.filter]

/-- Geometric weight sum satisfies the step recurrence. -/
theorem geomSumQ_succ (r : ℚ) (n : ℕ) : geomSumQ r (n + 1) = geomSumQ r n + r ^ n := by
  unfold geomSumQ
  rw [List.range_succ, List.map_append, List.sum_append]
  simp

/-- Closed form of the ewm fold: the accumulator after the whole list is
the power-weighted sum and the geometric weight sum, each shifted by the
seeds. -/
theorem ewm_foldl_closed (r : ℚ) :
    ∀ (xs : List ℚ) (a b : ℚ), xs.foldl (ewmStep r) (a, b) =
      (powWeightedSum r xs + a * r ^ xs.length, geomSumQ r xs.length + b * r ^ xs.length) := by
  intro xs
  induction xs with
  | nil =>
    intro a b
    simp [powWeightedSum, geomSumQ]
  | cons x t ih =>
    intro a b
    rw [List.foldl_cons]
    show t.foldl (ewmStep r) (x + r * a, 1 + r * b) = _
    rw [ih]
    rw [Prod.ext_iff]
    constructor
    · show powWeightedSum r t + (x + r * a) * r ^ t.length =
        x * r ^ t.length + powWeightedSum r t + a * r ^ (t.length + 1)
      ring
    · show geomSumQ r t.length + (1 + r * b) * r ^ t.length =
        geomSumQ r (t.length + 1) + b * r ^ (t.length + 1)
      rw [geomSumQ_succ]
      ring

/-- The last adjust=True exponentially weighted mean in closed form. -/
theorem ewmLast_closed (r : ℚ) (xs : List ℚ) :
    ewmLast r xs = powWeightedSum r xs / geomSumQ r xs.length := by
  unfold ewmLast
  rw [ewm_foldl_closed]
  simp

/-- Counterexample for C6: on the history with closes 1, 2 and a one-point
prediction, the macd the code returns (7/312, from the pandas adjust=True
weighted means) differs from the value of the spec's seeded EMA recursion
(28/351). -/
theorem c6_macd_counterexample :
    volSpec (FV.fin 0) (pctChange (closesOf cexHist2)) ∧
    (∃ res, analyzeTrend (some cexHist2) (some cexBatch5) (FV.fin 0) = .ok res ∧
      res.macd ≠
        emaRecLast (2 / 13) (closesOf cexHist2) - emaRecLast (2 / 27) (closesOf cexHist2)) := by
  constructor
  · exact Or.inr ⟨by norm_num [pctChange, closesOf, cexHist2, mkBar], 0, rfl, le_refl 0,
      by norm_num [popVariance, pctChange, closesOf, cexHist2, mkBar, meanQ]⟩
  · refine ⟨_, analyzeTrend_nonempty cexHist2 cexBatch5 (FV.fin 0)
      (by simp [cexHist2]) (by simp [cexBatch5]), ?_⟩
    norm_num [ewmLast, ewmStep, emaRecLast, emaRecAux, closesOf, cexHist2, mkBar]

/-- C6 amended: the macd is the span-12 minus span-26 exponentially
weighted average of the closes in the pandas adjust=True sense: with
r = 1 - 2/(span+1), the weighted mean sum of x_i * r^(n-1-i) divided by
the geometric weight sum, not the recursion seeded from the first
observation. -/
theorem c6_macd_adjusted_ema :
    ∀ bars batch vol res, bars ≠ [] → batch.prices ≠ [] →
    analyzeTrend (some bars) (some batch) vol = .ok res →
    res.macd =
      powWeightedSum (11 / 13) (closesOf bars) / geomSumQ (11 / 13) (closesOf bars).length
      - powWeightedSum (25 / 27) (closesOf bars) / geomSumQ (25 / 27) (closesOf bars).length := by
  intro bars batch vol res hb hp h
  rw [analyzeTrend_nonempty bars batch vol hb hp] at h
  injection h with h
  rw [← h]
  show ewmLast (11 / 13) (closesOf bars) - ewmLast (25 / 27) (closesOf bars) = _
  rw [ewmLast_closed, ewmLast_closed]

/-- Witness for the amended C6 at the concrete two-close history. -/
theorem c6_macd_adjusted_ema_witness :
    ∃ res, analyzeTrend (some cexHist2) (some cexBatch5) (FV.fin 0) = .ok res ∧
      res.macd =
        powWeightedSum (11 / 13) (closesOf cexHist2) / geomSumQ (11 / 13) (closesOf cexHist2).length
        - powWeightedSum (25 / 27) (closesOf cexHist2) /
            geomSumQ (25 / 27) (closesOf cexHist2).length :=
  ⟨_, analyzeTrend_nonempty cexHist2 cexBatch5 (FV.fin 0)
      (by simp [cexHist2]) (by simp [cexBatch5]),
    c6_macd_adjusted_ema cexHist2 cexBatch5 (FV.fin 0) _
      (by simp [cexHist2]) (by simp [cexBatch5])
      (analyzeTrend_nonempty cexHist2 cexBatch5 (FV.fin 0)
        (by simp [cexHist2]) (by simp [cexBatch5]))⟩

/-- Counterexample for C5: on the history with closes 1, 2, 3 (population
standard deviation of the percentage changes 1/4, sample variance 1/8) and
the prediction 1, 2 (least-squares slope 1), the code returns strength 40,
but no value c with c = clamp of the sample-standard-deviation formula can
be 40: the sample-based value squares to 800, not 1600. -/
theorem c5_strength_counterexample :
    (0 ≤ (1 / 4 : ℚ) ∧
      ((1 / 4 : ℚ)) ^ 2 = popVariance (pctChange (closesOf cexHist3))) ∧
    (∃ res, analyzeTrend (some cexHist3) (some cexBatch12) (FV.fin (1 / 4)) = .ok res ∧
      res.strength = FV.fin 40) ∧
    ¬ strengthSpecSq (slopeLS cexBatch12.prices)
        (sampleVariance (pctChange (closesOf cexHist3))) 40 := by
  refine ⟨⟨by norm_num,
    by norm_num [popVariance, pctChange, closesOf, cexHist3, mkBar, meanQ]⟩, ?_, ?_⟩
  · refine ⟨_, analyzeTrend_nonempty cexHist3 cexBatch12 _
      (by simp [cexHist3]) (by simp [cexBatch12]), ?_⟩
    show strengthFV (FV.fin (1 / 4)) (slopeLS cexBatch12.prices) = FV.fin 40
    rw [strengthFV_fin_pos _ _ (by norm_num)]
    norm_num [slopeLS, cexBatch12, show List.range 2 = [0, 1] from rfl]
  · intro hspec
    rw [show slopeLS cexBatch12.prices = 1 by
        norm_num [slopeLS, cexBatch12, show List.range 2 = [0, 1] from rfl],
      show sampleVariance (pctChange (closesOf cexHist3)) = 1 / 8 by
        norm_num [sampleVariance, pctChange, closesOf, cexHist3, mkBar, meanQ]] at hspec
    rcases hspec with ⟨h1, -⟩ | ⟨-, -, h3⟩
    · norm_num at h1
    · norm_num at h3

/-- C5 amended: with the population standard deviation (numpy std default
ddof 0) in place of the sample standard deviation, the strength returned on
a nonempty history with positive variance and a nonempty prediction is
exactly the clamp of |predSlope| / (volatility * 10) * 100 to the interval
from 0 to 100, characterized square-wise by strengthSpecSq. -/
theorem c5_strength_pop_std :
    ∀ bars batch q res, 0 ≤ q →
    q ^ 2 = popVariance (pctChange (closesOf bars)) →
    0 < popVariance (pctChange (closesOf bars)) →
    bars ≠ [] → batch.prices ≠ [] →
    analyzeTrend (some bars) (some batch) (FV.fin q) = .ok res →
    ∃ c, res.strength = FV.fin c ∧
      strengthSpecSq (slopeLS batch.prices) (popVariance (pctChange (closesOf bars))) c := by
  intro bars batch q res hq0 hq2 hvar hb hp h
  have hqpos : 0 < q := by
    rcases eq_or_lt_of_le hq0 with heq | hlt
    · exfalso
      rw [← heq] at hq2
      rw [← hq2] at hvar
      norm_num at hvar
    · exact hlt
  rw [analyzeTrend_nonempty bars batch _ hb hp] at h
  injection h with h
  rw [← h]
  show ∃ c, strengthFV (FV.fin q) (slopeLS batch.prices) = FV.fin c ∧ _
  rw [strengthFV_fin_pos _ _ hqpos]
  rw [← hq2]
  have hq10 : (0 : ℚ) < q * 10 := by positivity
  have habs : 0 ≤ |slopeLS batch.prices| := abs_nonneg _
  have hsq : |slopeLS batch.prices| ^ 2 = slopeLS batch.prices ^ 2 := sq_abs _
  have hx0 : 0 ≤ |slopeLS batch.prices| / (q * 10) * 100 := by positivity
  rw [max_eq_right hx0]
  by_cases hcl : 100 ≤ |slopeLS batch.prices| / (q * 10) * 100
  · rw [min_eq_left hcl]
    refine ⟨100, rfl, Or.inl ⟨?_, rfl⟩⟩
    rw [div_mul_eq_mul_div, le_div_iff₀ hq10] at hcl
    have h10q : q * 10 ≤ |slopeLS batch.prices| := by linarith
    nlinarith [mul_self_le_mul_self (by positivity : (0 : ℚ) ≤ q * 10) h10q]
  · push_neg at hcl
    rw [min_eq_right hcl.le]
    refine ⟨_, rfl, Or.inr ⟨?_, hx0, ?_⟩⟩
    · rw [div_mul_eq_mul_div, div_lt_iff₀ hq10] at hcl
      have h10q : |slopeLS batch.prices| < q * 10 := by linarith
      nlinarith [mul_self_lt_mul_self habs h10q]
    · rw [← hsq]
      field_simp
      rw [mul_pow, sq_abs]
      ring

/-- Witness for the amended C5: the concrete history with closes 1, 2, 3
and the prediction 1, 2, where the population standard deviation is 1/4 and
the strength 40 satisfies the square-wise clamp characterization. -/
theorem c5_strength_pop_std_witness :
    ∃ res c, analyzeTrend (some cexHist3) (some cexBatch12) (FV.fin (1 / 4)) = .ok res ∧
      res.strength = FV.fin c ∧
      strengthSpecSq (slopeLS cexBatch12.prices)
        (popVariance (pctChange (closesOf cexHist3))) c := by
  obtain ⟨c, hc, hs⟩ := c5_strength_pop_std cexHist3 cexBatch12 (1 / 4) _
    (by norm_num)
    (by norm_num [popVariance, pctChange, closesOf, cexHist3, mkBar, meanQ])
    (by norm_num [popVariance, pctChange, closesOf, cexHist3, mkBar, meanQ])
    (by simp [cexHist3]) (by simp [cexBatch12])
    (analyzeTrend_nonempty cexHist3 cexBatch12 (FV.fin (1 / 4))
      (by simp [cexHist3]) (by simp [cexBatch12]))
  exact ⟨_, c, analyzeTrend_nonempty cexHist3 cexBatch12 (FV.fin (1 / 4))
    (by simp [cexHist3]) (by simp [cexBatch12]), hc, hs⟩

/-- The next assigned date is strictly later. -/
theorem nextDate_gt (cont : Bool) (d : Int) : d < nextDate cont d := by
  unfold nextDate weekday
  split_ifs <;> omega

/-- For non-continuous markets the next assigned date is a weekday. -/
theorem nextDate_weekday (d : Int) : weekday (nextDate false d) < 5 := by
  unfold nextDate weekday
  simp only [Bool.false_eq_true, if_false]
  split_ifs with h1 h2
  · exact h1
  · exact h2
  · omega

/-- For non-continuous markets every skipped day is a weekend day. -/
theorem nextDate_skip (d x : Int) (h1 : d < x) (h2 : x < nextDate false d) :
    5 ≤ weekday x := by
  unfold nextDate weekday at *
  simp only [Bool.false_eq_true, if_false] at h2
  split_ifs at h2 <;> omega

/-- The generated date list has one date per predictive point. -/
theorem genDates_length (cont : Bool) : ∀ n start, (genDates cont start n).length = n := by
  intro n
  induction n with
  | zero => intro start; rfl
  | succ m ih => intro start; simp only [genDates, List.length_cons, ih]

/-- Every generated date is strictly later than the start date. -/
theorem genDates_mem_gt (cont : Bool) : ∀ n start d, d ∈ genDates cont start n → start < d := by
  intro n
  induction n with
  | zero => intro start d h; simp [genDates] at h
  | succ m ih =>
    intro start d h
    rw [genDates] at h
    rcases List.mem_cons.1 h with rfl | h2
    · exact nextDate_gt cont start
    · exact lt_trans (nextDate_gt cont start) (ih _ _ h2)

/-- The generated dates are strictly increasing. -/
theorem genDates_pairwise (cont : Bool) :
    ∀ n start, List.Pairwise (· < ·) (genDates cont start n) := by
  intro n
  induction n with
  | zero => intro start; exact List.Pairwise.nil
  | succ m ih =>
    intro start
    rw [genDates]
    exact List.pairwise_cons.2 ⟨fun d hd => genDates_mem_gt cont m _ d hd, ih _⟩

/-- For non-continuous markets every generated date is a weekday. -/
theorem genDates_weekday : ∀ n start d, d ∈ genDates false start n → weekday d < 5 := by
  intro n
  induction n with
  | zero => intro start d h; simp [genDates] at h
  | succ m ih =>
    intro start d h
    rw [genDates] at h
    rcases List.mem_cons.1 h with rfl | h2
    · exact nextDate_weekday start
    · exact ih _ _ h2

/-- For non-continuous markets every skipped day between the start and the
generated dates is a weekend day: chained version from the start date. -/
theorem genDates_chain :
    ∀ n start, List.Chain (fun a b => ∀ x, a < x → x < b → 5 ≤ weekday x) start
      (genDates false start n) := by
  intro n
  induction n with
  | zero => intro start; exact List.Chain.nil
  | succ m ih =>
    intro start
    rw [genDates]
    exact List.Chain.cons (fun x hx1 hx2 => nextDate_skip _ x hx1 hx2) (ih _)

/-- For non-continuous markets consecutive generated dates skip only
weekend days: the dates are consecutive weekdays. -/
theorem genDates_chain_gap :
    ∀ n start, List.Chain' (fun a b => ∀ x, a < x → x < b → 5 ≤ weekday x)
      (genDates false start n) := by
  intro n
  cases n with
  | zero => intro start; exact List.chain'_nil
  | succ m =>
    intro start
    rw [genDates]
    exact genDates_chain m (nextDate false start)

/-- For continuous markets the generated dates are the consecutive calendar
days following the start date: each date is its predecessor plus one. -/
theorem genDates_true : ∀ n start,
    List.Chain (fun a b => b = a + 1) start (genDates true start n) := by
  intro n
  induction n with
  | zero => intro start; exact List.Chain.nil
  | succ m ih =>
    intro start
    rw [genDates]
    exact List.Chain.cons rfl (ih _)

/-- Historical rows never carry the predictive tag. -/
theorem filter_hist_rows (bars : List Bar) :
    (bars.map fun b => CRow.mk b.date b.openPrice b.high b.low b.close "historical").filter
      (fun row => decide (row.rowType = "predictive")) = [] := by
  induction bars with
  | nil => rfl
  | cons b bs ih => simp [List.filter, ih]

/-- The predictive rows keep exactly the index dates, provided the value
columns are at least as long. -/
theorem zipRows_filter_map : ∀ (ds : List Int) (os hs ls cs : List ℚ),
    ds.length ≤ os.length → ds.length ≤ hs.length → ds.length ≤ ls.length →
    ds.length ≤ cs.length →
    ((zipRows ds os hs ls cs).filter (fun row => decide (row.rowType = "predictive"))).map
      CRow.date = ds := by
  intro ds
  induction ds with
  | nil => intro os hs ls cs _ _ _ _; cases os <;> cases hs <;> cases ls <;> cases cs <;> rfl
  | cons d dt ih =>
    intro os hs ls cs ho hh hl hc
    cases os with
    | nil => simp at ho
    | cons o ot =>
      cases hs with
      | nil => simp at hh
      | cons h ht =>
        cases ls with
        | nil => simp at hl
        | cons l lt' =>
          cases cs with
          | nil => simp at hc
          | cons c ct =>
            rw [zipRows]
            simp only [List.length_cons, Nat.add_le_add_iff_right] at ho hh hl hc
            have hrec := ih ot ht lt' ct ho hh hl hc
            simp [List.filter_cons, hrec]

/-- The generated batch always has five lists of equal length. -/
theorem generatePredictions_wf (hist : Option (List Bar)) (cp : ℚ) (days : ℕ) (vol : ℚ)
    (r : Rand) : batchWF (generatePredictions hist cp days vol r) := by
  match hist with
  | none => exact ⟨rfl, rfl, rfl, rfl⟩
  | some [] => exact ⟨rfl, rfl, rfl, rfl⟩
  | some (b :: bs) =>
    simp only [generatePredictions, List.isEmpty_cons, Bool.false_eq_true, if_false]
    exact ⟨by simp, by simp, by simp, by simp⟩

/-- get_historical_data does not touch the predictive cache. -/
theorem getHistoricalData_pred (f : Fetch) (s : AState) :
    (getHistoricalData f s).2.pred = s.pred := by
  unfold getHistoricalData
  cases s.hist <;> rfl

/-- Any batch returned by get_predictive_data is well formed, given a well
formed cache. -/
theorem getPredictiveData_wf (f : Fetch) (s : AState) (days : ℕ) (vol : ℚ) (r : Rand)
    (hwf : stateWF s) :
    ∀ out b, getPredictiveData f s days vol r = .ok out → out.1 = some b → batchWF b := by
  intro out b hout hb
  simp only [getPredictiveData] at hout
  by_cases hregen : (match s.pred with
    | none => true
    | some b => decide (b.prices.length ≠ days)) = true
  · rw [if_pos hregen] at hout
    cases hh : (getHistoricalData f s).1 with
    | none =>
      rw [hh] at hout
      simp only [] at hout
      injection hout with hout
      rw [← hout] at hb
      exact hwf b (by rw [← getHistoricalData_pred f s]; exact hb)
    | some bars =>
      rw [hh] at hout
      simp only [] at hout
      by_cases hbe : bars.isEmpty
      · rw [if_pos hbe] at hout
        injection hout with hout
        rw [← hout] at hb
        exact hwf b (by rw [← getHistoricalData_pred f s]; exact hb)
      · rw [if_neg hbe] at hout
        cases hrt : (getRealTimeData f (getHistoricalData f s).2).1 with
        | none => rw [hrt] at hout; exact absurd hout (by simp)
        | some price =>
          rw [hrt] at hout
          injection hout with hout
          rw [← hout] at hb
          simp only [Option.some.injEq] at hb
          rw [← hb]
          exact generatePredictions_wf _ _ _ _ _
  · rw [if_neg hregen] at hout
    injection hout with hout
    rw [← hout] at hb
    exact hwf b hb

/-- C7: the dates that combine_historical_and_predictive assigns to the
predictive points start strictly after the last historical date and are
strictly increasing; for symbols without the ".X" or "-USD" suffix they are
weekdays with only weekend days skipped between consecutive points, and for
continuous-market symbols they are the consecutive calendar days following
the last historical date. -/
theorem c7_predictive_dates :
    ∀ (sym : String) (now : Int) (f : Fetch) (s : AState) (days : ℕ) (vol : ℚ) (r : Rand)
      rows s2 bars lastBar,
    stateWF s →
    (getHistoricalData f s).1 = some bars →
    bars.getLast? = some lastBar →
    combineHistoricalAndPredictive sym now f s days vol r = .ok (rows, s2) →
    (∀ d ∈ (rows.filter fun row => decide (row.rowType = "predictive")).map CRow.date,
      lastBar.date < d) ∧
    List.Pairwise (· < ·)
      ((rows.filter fun row => decide (row.rowType = "predictive")).map CRow.date) ∧
    (contMarket sym = false →
      (∀ d ∈ (rows.filter fun row => decide (row.rowType = "predictive")).map CRow.date,
        weekday d < 5) ∧
      List.Chain' (fun a b => ∀ x, a < x → x < b → 5 ≤ weekday x)
        ((rows.filter fun row => decide (row.rowType = "predictive")).map CRow.date)) ∧
    (contMarket sym = true →
      List.Chain (fun a b => b = a + 1) lastBar.date
        ((rows.filter fun row => decide (row.rowType = "predictive")).map CRow.date)) := by
  intro sym now f s days vol r rows s2 bars lastBar hwf hhist hlast hcomb
  simp only [combineHistoricalAndPredictive] at hcomb
  rw [hhist] at hcomb
  cases hpred : getPredictiveData f (getHistoricalData f s).2 days vol r with
  | error e => rw [hpred] at hcomb; exact absurd hcomb (by simp)
  | ok pr =>
    rw [hpred] at hcomb
    simp only [] at hcomb
    cases hb : pr.1 with
    | none =>
      rw [hb] at hcomb
      simp only [] at hcomb
      exact absurd hcomb (by simp)
    | some batch =>
      rw [hb, hlast] at hcomb
      simp only [] at hcomb
      injection hcomb with hcomb
      have hrows : rows = (bars.map fun b =>
          CRow.mk b.date b.openPrice b.high b.low b.close "historical") ++
          zipRows (genDates (contMarket sym) lastBar.date batch.prices.length)
            batch.openPrices batch.highPrices batch.lowPrices batch.prices := by
        have := congrArg Prod.fst hcomb
        simp at this
        exact this.symm
      have hwf2 : stateWF (getHistoricalData f s).2 := by
        intro b hb2
        exact hwf b (by rw [← getHistoricalData_pred f s]; exact hb2)
      have hbwf : batchWF batch := getPredictiveData_wf f _ days vol r hwf2 pr batch hpred hb
      have hlen : (genDates (contMarket sym) lastBar.date batch.prices.length).length =
          batch.prices.length := genDates_length _ _ _
      have hdates : (rows.filter fun row => decide (row.rowType = "predictive")).map CRow.date =
          genDates (contMarket sym) lastBar.date batch.prices.length := by
        rw [hrows, List.filter_append, List.map_append, filter_hist_rows,
          zipRows_filter_map _ _ _ _ _ (by rw [hlen, hbwf.2.1]) (by rw [hlen, hbwf.2.2.1])
            (by rw [hlen, hbwf.2.2.2]) (by rw [hlen])]
        rfl
      rw [hdates]
      refine ⟨fun d hd => genDates_mem_gt _ _ _ d hd, genDates_pairwise _ _ _, ?_, ?_⟩
      · intro hcont
        rw [hcont]
        exact ⟨fun d hd => genDates_weekday _ _ d hd, genDates_chain_gap _ _⟩
      · intro hcont
        rw [hcont]
        exact genDates_true _ _

/-- Witness for C7: a Friday-dated one-bar history with a cached three-point
batch; for the stock symbol AAPL the first predictive date is the following
Monday (day 7), strictly after Friday and a weekday. -/
theorem c7_predictive_dates_witness :
    friBar.date < (7 : Int) ∧ weekday 7 < 5 := by
  have h := c7_predictive_dates "AAPL" 0 ⟨some 1, some [friBar]⟩ ⟨none, none, some wBatch3⟩
    3 0 zeroRand wRows wState2 [friBar] friBar
    (fun b hb => by
      simp only [Option.some.injEq] at hb
      rw [← hb]
      exact ⟨rfl, rfl, rfl, rfl⟩)
    rfl rfl rfl
  have hm : (7 : Int) ∈ (wRows.filter fun row =>
      decide (row.rowType = "predictive")).map CRow.date := by decide
  exact ⟨h.1 7 hm, (h.2.2.1 rfl).1 7 hm⟩

end Stock
